import Mathlib

/-!
Shallow embedding of the `hpc_performance` repository (three Python scripts:
`nextflow/fixed_cpus/get_su_nf2-fixedCpus.py`, `nextflow/pipeline/get_su_nf.py`,
`single_jobs/get_su_threads_cpus.py`).

Modelling conventions:
* Python strings are `List Char`; Python floats are idealised as `ℚ`
  (exact rational arithmetic in place of binary64);
* fallible Python operations (`int(...)`, `float(...)`, list indexing,
  uncaught exceptions) return `Option`;
* Python builtins (`str.strip`, `str.split`, `str.replace`, `in`, `round`)
  are re-implemented below with their documented semantics (whitespace is
  the ASCII whitespace class; `round` is round-half-to-even).
-/

/-- Python whitespace class used by `str.strip` / `str.split()` (ASCII part). -/
def pySpace (c : Char) : Bool :=
  c == ' ' || c == '\t' || c == '\n' || c == '\r' || c == '\x0b' || c == '\x0c'

/-- Python `str.strip()`: drop leading and trailing whitespace. -/
def pystrip (l : List Char) : List Char :=
  ((l.dropWhile pySpace).reverse.dropWhile pySpace).reverse

/-- Python `str.split(sep)` for a one-character separator: split at every
occurrence of `sep`, keeping empty fields. -/
def pysplit (sep : Char) : List Char → List (List Char)
  | [] => [[]]
  | c :: rest =>
    if c == sep then [] :: pysplit sep rest
    else
      match pysplit sep rest with
      | [] => [[c]]
      | g :: gs => (c :: g) :: gs

/-- Helper for `pysplitWs`: accumulates the current (reversed) token. -/
def splitWsAux : List Char → List Char → List (List Char)
  | [], acc => if acc.isEmpty then [] else [acc.reverse]
  | c :: rest, acc =>
    if pySpace c then
      if acc.isEmpty then splitWsAux rest [] else acc.reverse :: splitWsAux rest []
    else splitWsAux rest (c :: acc)

/-- Python `str.split()` with no separator: split on whitespace runs,
discarding empty fields. -/
def pysplitWs (l : List Char) : List (List Char) :=
  splitWsAux l []

/-- Python `c in s` for a single character: membership. -/
def containsChar (c : Char) (l : List Char) : Bool :=
  l.any (fun x => x == c)

/-- Does `pat` occur at the very start of `l`? (List-of-char matcher used to
model Python substring operations.) -/
def leadsWith : List Char → List Char → Bool
  | [], _ => true
  | _ :: _, [] => false
  | p :: ps, c :: cs => p == c && leadsWith ps cs

/-- Python `needle in haystack`: substring containment. -/
def containsSeq (pat : List Char) : List Char → Bool
  | [] => leadsWith pat []
  | c :: cs => leadsWith pat (c :: cs) || containsSeq pat cs

/-- Numeric value of a decimal digit list (most significant first). -/
def natOfDigits (l : List Char) : Nat :=
  l.foldl (fun a c => a * 10 + (c.toNat - '0'.toNat)) 0

/-- Python `int(s)` on a base-10 numeral: optional sign, then a nonempty run
of decimal digits; anything else raises `ValueError` (modelled as `none`).
Leading/trailing whitespace is stripped as `int` does. -/
def pyint (l : List Char) : Option Int :=
  match pystrip l with
  | '-' :: ds =>
    if !ds.isEmpty && ds.all Char.isDigit then some (-(natOfDigits ds : Int)) else none
  | '+' :: ds =>
    if !ds.isEmpty && ds.all Char.isDigit then some (natOfDigits ds : Int) else none
  | ds =>
    if !ds.isEmpty && ds.all Char.isDigit then some (natOfDigits ds : Int) else none

/-- Value of an unsigned decimal numeral `digits [. digits]` (at least one
digit overall), as an exact rational. -/
def decValue (l : List Char) : Option ℚ :=
  match pysplit '.' l with
  | [a] =>
    if !a.isEmpty && a.all Char.isDigit then some (natOfDigits a : ℚ) else none
  | [a, b] =>
    if (!a.isEmpty || !b.isEmpty) && a.all Char.isDigit && b.all Char.isDigit then
      some ((natOfDigits a : ℚ) + (natOfDigits b : ℚ) / (10 : ℚ) ^ b.length)
    else none
  | _ => none

/-- Python `float(s)` on the decimal-numeral fragment relevant here:
optional sign then `digits[.digits]`; exponents and `inf`/`nan` are outside
the fragment exercised by the programs and are not modelled. Values are kept
exact in `ℚ`. -/
def pyfloat (l : List Char) : Option ℚ :=
  match pystrip l with
  | '-' :: ds => (decValue ds).map (fun q => -q)
  | '+' :: ds => decValue ds
  | ds => decValue ds

/-- Python `round(x)`: round half to even, as an integer. -/
def pyround (q : ℚ) : Int :=
  let f : Int := ⌊q⌋
  if q - f < 1 / 2 then f
  else if 1 / 2 < q - f then f + 1
  else if 2 ∣ f then f else f + 1

/-- Python `round(x, 2)` (idealised to exact rationals). -/
def pyround2 (q : ℚ) : ℚ :=
  (pyround (q * 100) : ℚ) / 100

/-- Python `str(n)` for a natural number: decimal digits. -/
def natToChars (n : Nat) : List Char :=
  if h : n < 10 then [Nat.digitChar n]
  else natToChars (n / 10) ++ [Nat.digitChar (n % 10)]
  decreasing_by
    exact Nat.div_lt_self (Nat.lt_of_lt_of_le (by decide) (Nat.le_of_not_lt h)) (by decide)

/-- Python `str.replace(pat, repl)`: replace all non-overlapping occurrences,
scanning left to right. -/
def replaceAll (pat repl : List Char) : List Char → List Char
  | [] => []
  | c :: rest =>
    if !pat.isEmpty && leadsWith pat (c :: rest) then
      repl ++ replaceAll pat repl (rest.drop (pat.length - 1))
    else
      c :: replaceAll pat repl rest
  termination_by l => l.length
  decreasing_by
    · simp only [List.length_drop, List.length_cons]
      omega
    · simp

/-- Python dict insertion `d[k] = v`: update in place if the key exists,
otherwise append (insertion order preserved). -/
def dictInsert (k : Nat) (v : List Char) : List (Nat × List Char) → List (Nat × List Char)
  | [] => [(k, v)]
  | (k₀, v₀) :: rest =>
    if k₀ = k then (k, v) :: rest else (k₀, v₀) :: dictInsert k v rest

/-- One `if <mark> in time_str:` block of `convert_time_to_hours`
(marks `'h'` and `'m'`): when the marker occurs, parse the text before the
first occurrence with `int` and continue with the stripped text between the
first and second occurrence (`split(mark)[1]`); otherwise the segment
contributes `0` and the string is unchanged. -/
def unitStep (mark : Char) (time_str : List Char) : Option (Int × List Char) :=
  if containsChar mark time_str then
    match pysplit mark time_str with
    | p0 :: p1 :: _ =>
      match pyint (pystrip p0) with
      | some v => some (v, pystrip p1)
      | none => none
    | _ => none
  else some (0, time_str)

/-- The `if "s" in time_str:` block of `convert_time_to_hours`: parse the
text before the first `'s'` with `float`, else `0`. -/
def secondStep (s2 : List Char) : Option ℚ :=
  if containsChar 's' s2 then
    match pysplit 's' s2 with
    | p0 :: _ => pyfloat (pystrip p0)
    | _ => none
  else some 0

/-- `convert_time_to_hours` (identical in `get_su_nf2-fixedCpus.py` lines 11–21
and `get_su_nf.py` lines 11–21): split an elapsed-time string on the letters
`h`, `m`, `s` in turn and return `hours + minutes/60 + seconds/3600`.
`none` models the uncaught `ValueError` of `int`/`float` on malformed text. -/
def convert_time_to_hours (time_str : List Char) : Option ℚ :=
  match unitStep 'h' time_str with
  | none => none
  | some (hours, s1) =>
    match unitStep 'm' s1 with
    | none => none
    | some (minutes, s2) =>
      match secondStep s2 with
      | none => none
      | some seconds =>
        some ((hours : ℚ) + (minutes : ℚ) / 60 + seconds / 3600)

/-- Character class `[\d.]` of the `format_memory` regular expression. -/
def isDigDot (c : Char) : Bool :=
  c.isDigit || c == '.'

/-- Character class `\w` (ASCII part): letters, digits, underscore. -/
def isWordChar (c : Char) : Bool :=
  c.isAlpha || c.isDigit || c == '_'

/-- Tail `\s*(\w+)` of the `format_memory` regular expression: skip
whitespace greedily, then capture a nonempty run of word characters. -/
def matchSpaceWord (l : List Char) : Option (List Char) :=
  if ((l.dropWhile pySpace).takeWhile isWordChar).isEmpty then none
  else some ((l.dropWhile pySpace).takeWhile isWordChar)

/-- Backtracking matcher for `re.match(r'([\d.]+)\s*(\w+)', s)`: the first
group is greedy (prefer consuming one more `[\d.]` character), backtracking
until the tail `\s*\w+` matches. Returns the two captured groups. -/
def matchValueUnit : List Char → Option (List Char × List Char)
  | [] => none
  | c :: rest =>
    if isDigDot c then
      match matchValueUnit rest with
      | some (v, u) => some (c :: v, u)
      | none =>
        match matchSpaceWord rest with
        | some u => some ([c], u)
        | none => none
    else none

/-- `format_memory` (`get_su_nf2-fixedCpus.py` lines 23–38): sentinel for
blank input, `"<value> <unit>"` when the regular expression matches,
otherwise the raw value unchanged. -/
def format_memory (memory_value : List Char) : List Char :=
  if (pystrip memory_value).isEmpty then "N/A".data
  else
    match matchValueUnit memory_value with
    | some (value, unit) => value ++ ' ' :: unit
    | none => memory_value

/-- Scan for the first `)` (the lazy `.*?` of `re.sub(r'\(.*?\)', ...)`
cannot cross a newline); returns the remainder after it. -/
def findClose : List Char → Option (List Char)
  | [] => none
  | ')' :: rest => some rest
  | '\n' :: _ => none
  | _ :: rest => findClose rest

theorem findClose_length {l r : List Char} (h : findClose l = some r) :
    r.length < l.length := by
  induction l with
  | nil => simp [findClose] at h
  | cons c rest ih =>
    by_cases hc : c = ')'
    · subst hc
      simp only [findClose] at h
      cases h
      simp
    · by_cases hn : c = '\n'
      · subst hn
        simp [findClose] at h
      · have : findClose (c :: rest) = findClose rest := by
          cases rest with
          | nil => cases c with | mk v p => simp_all [findClose]
          | cons d ds => cases c with | mk v p => simp_all [findClose]
        rw [this] at h
        exact Nat.lt_succ_of_lt (ih h)

/-- `re.sub(r'\(.*?\)', '', name)`: delete every lazily matched
parenthesised span, scanning left to right. -/
def removeParens (l : List Char) : List Char :=
  match l with
  | [] => []
  | '(' :: rest =>
    match h : findClose rest with
    | some rest' => removeParens rest'
    | none => '(' :: removeParens rest
  | c :: rest => c :: removeParens rest
  termination_by l.length
  decreasing_by
    · exact Nat.lt_succ_of_lt (findClose_length h)
    · simp
    · simp

/-- `clean_name` (`get_su_nf2-fixedCpus.py` lines 40–44): strip parenthesised
annotations, then surrounding whitespace. -/
def clean_name (name : List Char) : List Char :=
  pystrip (removeParens name)

namespace FixedCpus

/-- One output record of the fixed-CPUs report (`get_su_nf2-fixedCpus.py`
lines 85–93). -/
structure TaskOut where
  name : List Char
  duration : List Char
  duration_hours : ℚ
  peak_rss : List Char
  su : ℚ
  cpus : Nat
  total_cores : Nat
  deriving DecidableEq, Repr

/-- Loop body of `main` in `get_su_nf2-fixedCpus.py` (lines 71–93): read
columns 3, 8 and 10 of a tab-split row, round the parsed duration to two
decimal places, and compute `SU = duration_hours * (64 * cpus)`. `none`
models an uncaught `IndexError`/`ValueError`. -/
def processRow (cpus : Nat) (row : List (List Char)) : Option TaskOut :=
  match row[3]?, row[8]?, row[10]? with
  | some nm, some dur, some mem =>
    match convert_time_to_hours dur with
    | none => none
    | some q =>
      let duration_hours := pyround2 q
      let cores_per_cpu : Nat := 64
      some
        { name := clean_name nm
          duration := dur
          duration_hours := duration_hours
          peak_rss := format_memory mem
          su := duration_hours * ((cores_per_cpu : ℚ) * (cpus : ℚ))
          cpus := cpus
          total_cores := cores_per_cpu * cpus }
  | _, _, _ => none

end FixedCpus

namespace Pipeline

/-- `calculate_su` (`get_su_nf.py` lines 24–27):
`(cpu_percent / 100) * cores_per_node * duration_hours`, where the duration
string is first converted to hours. -/
def calculate_su (cpu_percent : ℚ) (duration_str : List Char) (cores_per_node : ℚ) : Option ℚ :=
  match convert_time_to_hours duration_str with
  | none => none
  | some duration_hours => some (cpu_percent / 100 * cores_per_node * duration_hours)

/-- `calculate_total_cores` (`get_su_nf.py` lines 29–32):
`(cpu_percent / 100) * cores_per_cpu`. -/
def calculate_total_cores (cpu_percent : ℚ) (cores_per_cpu : ℚ) : ℚ :=
  cpu_percent / 100 * cores_per_cpu

end Pipeline

namespace SingleJobs

/-- `create_slurm_script` (`get_su_threads_cpus.py` lines 12–66): substitute
`{cores}` (as `num_cpus * 64`) and `{cpus}` into the command template, render
the batch script text, and name the file `slurm_job_<n>.sh`. Returns
`(script_filename, script_content)`; the file write itself is I/O. -/
def create_slurm_script (num_cpus : Nat) (command job_name account partition : List Char) :
    List Char × List Char :=
  let cores := num_cpus * 64
  let command_with_cores :=
    replaceAll "{cpus}".data (natToChars num_cpus)
      (replaceAll "{cores}".data (natToChars cores) command)
  let script_content :=
    "#!/bin/bash\n#SBATCH --job-name=".data ++ job_name
    ++ "\n#SBATCH --ntasks=".data ++ natToChars num_cpus
    ++ "\n#SBATCH --cpus-per-task=1\n#SBATCH --time=1-00:00:00  # Adjust this as necessary\n#SBATCH --account=".data ++ account
    ++ "  # Specify your account\n#SBATCH --partition=".data ++ partition
    ++ "  # Specify the partition\n#SBATCH --exclusive\n#SBATCH --output=slurm-%j.out\n#SBATCH --error=slurm-%j.err\n#SBATCH --mem-per-cpu=200GB\n\necho \"Running on $SLURM_JOB_NODELIST\"\necho \"Using ".data ++ natToChars num_cpus
    ++ " CPUs and ".data ++ natToChars cores
    ++ " cores\"\n\n# Record start time\nstart_time=$(date +%s)\n\n# Run the command with the number of cores and output directory\n".data ++ command_with_cores
    ++ "\n\n# Record end time\nend_time=$(date +%s)\nelapsed_time=$((end_time - start_time))\n\n# Write the elapsed time to a file\necho \"Elapsed time: $elapsed_time seconds\" > ".data
    ++ ("job-".data ++ (natToChars num_cpus ++ ".time".data)) ++ "\n".data
  let script_filename := "slurm_job_".data ++ natToChars num_cpus ++ ".sh".data
  (script_filename, script_content)

/-- `submit_slurm_job` (`get_su_threads_cpus.py` lines 68–89), as a function
of the `sbatch` subprocess result: on non-zero exit return the
`"Error submitting job: ..."` string; otherwise the last whitespace token of
standard output, or the `"Error: Failed to extract job ID..."` string when
there is none (the caught `IndexError`). -/
def submit_slurm_job (returncode : Int) (stdout stderr : List Char) : List Char :=
  if returncode ≠ 0 then "Error submitting job: ".data ++ stderr
  else
    match (pysplitWs (pystrip stdout)).getLast? with
    | some job_id => job_id
    | none => "Error: Failed to extract job ID from sbatch output.".data

/-- Loop condition of `wait_for_job_completion` (`get_su_threads_cpus.py`
line 106): the stripped `sacct` output contains `COMPLETED`, `FAILED` or
`CANCELLED` as a substring. -/
def jobStatusTerminal (stdout : List Char) : Bool :=
  let job_status := pystrip stdout
  containsSeq "COMPLETED".data job_status || containsSeq "FAILED".data job_status
    || containsSeq "CANCELLED".data job_status

/-- `wait_for_job_completion` (`get_su_threads_cpus.py` lines 91–108):
query the status oracle at indices `i, i+1, ...`, sleeping 10 seconds after
each non-terminal answer. Returns `(index of the terminal query, seconds
slept)`; `fuel` bounds the unbounded `while True` for the embedding, with
`none` meaning the loop is still running after `fuel` queries. -/
def wait_for_job_completion (statuses : Nat → List Char) : Nat → Nat → Nat → Option (Nat × Nat)
  | 0, _, _ => none
  | fuel + 1, i, slept =>
    if jobStatusTerminal (statuses i) then some (i, slept)
    else wait_for_job_completion statuses fuel (i + 1) (slept + 10)

/-- `calculate_su` (`get_su_threads_cpus.py` lines 110–125):
`num_cores * wall_time_hours * su_cost_per_core_hour` with
`num_cores = num_cpus * cores_per_cpu`. -/
def calculate_su (num_cpus cores_per_cpu : Nat) (wall_time_hours su_cost_per_core_hour : ℚ) : ℚ :=
  let num_cores := num_cpus * cores_per_cpu
  (num_cores : ℚ) * wall_time_hours * su_cost_per_core_hour

/-- `read_wall_time` (`get_su_threads_cpus.py` lines 127–143), as a function
of the contents of `job-<cpu_count>.time` (`none` = file absent): a missing
file is caught (`FileNotFoundError`) and yields `0`; otherwise the third
whitespace token is parsed as a float and divided by 3600, with `none`
modelling the uncaught `IndexError`/`ValueError` on malformed contents. -/
def read_wall_time (contents : Option (List Char)) : Option ℚ :=
  match contents with
  | none => some 0
  | some time_data =>
    match (pysplitWs (pystrip time_data))[2]? with
    | none => none
    | some tok =>
      match pyfloat tok with
      | none => none
      | some elapsed_time => some (elapsed_time / 3600)

/-- Observable actions of the sweep orchestrator `main`
(`get_su_threads_cpus.py` lines 145–199). -/
inductive Event where
  | createScript (cpu : Nat) : Event
  | submit (cpu : Nat) : Event
  | poll (cpu : Nat) (job_id : List Char) : Event
  | readTime (cpu : Nat) : Event
  | writeLine (cpu : Nat) (cores : Nat) (su : ℚ) : Event
  deriving DecidableEq, Repr

/-- Environment supplied by the external scheduler and filesystem: per-CPU
`sbatch` results, per-job-ID `sacct` outputs indexed by query number, and
the contents of each `job-<cpu>.time` file. -/
structure SchedEnv where
  submitRc : Nat → Int
  submitOut : Nat → List Char
  submitErr : Nat → List Char
  statuses : List Char → Nat → List Char
  timeFile : Nat → Option (List Char)

/-- First loop of `main` (lines 174–182): create and submit a script per CPU
count in order, recording the job ID in the dict unless the result contains
`"Error"`. Returns the final dict and the emitted events. -/
def submitPhase (env : SchedEnv) : List Nat → List (Nat × List Char) →
    List (Nat × List Char) × List Event
  | [], job_ids => (job_ids, [])
  | num_cpus :: rest, job_ids =>
    let job_id :=
      submit_slurm_job (env.submitRc num_cpus) (env.submitOut num_cpus) (env.submitErr num_cpus)
    let job_ids' :=
      if containsSeq "Error".data job_id then job_ids else dictInsert num_cpus job_id job_ids
    let step := submitPhase env rest job_ids'
    (step.1, Event.createScript num_cpus :: Event.submit num_cpus :: step.2)

/-- Second loop of `main` (lines 184–186): wait for each submitted job in
dict order; `none` when some job never reaches a terminal state within
`fuel` queries. -/
def pollPhase (env : SchedEnv) (fuel : Nat) : List (Nat × List Char) → Option (List Event)
  | [] => some []
  | (num_cpus, job_id) :: rest =>
    match wait_for_job_completion (env.statuses job_id) fuel 0 0 with
    | none => none
    | some _ => (pollPhase env fuel rest).map (fun evs => Event.poll num_cpus job_id :: evs)

/-- Third loop of `main` (lines 188–199): for every requested CPU count, read
the wall-time file, compute the SU with `cores_per_cpu = 64` and
`su_cost_per_core_hour = 1`, and write one report line. -/
def reportPhase (env : SchedEnv) : List Nat → Option (List Event)
  | [] => some []
  | num_cpus :: rest =>
    match read_wall_time (env.timeFile num_cpus) with
    | none => none
    | some wall_time_hours =>
      let total_su := calculate_su num_cpus 64 wall_time_hours 1
      (reportPhase env rest).map (fun evs =>
        Event.readTime num_cpus :: Event.writeLine num_cpus (num_cpus * 64) total_su :: evs)

/-- `main` of `get_su_threads_cpus.py` (lines 145–199) as an event trace:
submit all, then poll all, then report all. -/
def mainSweep (env : SchedEnv) (cpu_list : List Nat) (fuel : Nat) : Option (List Event) :=
  let phase1 := submitPhase env cpu_list []
  match pollPhase env fuel phase1.1 with
  | none => none
  | some evs2 => (reportPhase env cpu_list).map (fun evs3 => phase1.2 ++ evs2 ++ evs3)

/-- Report rows `(CPUs, Cores, SU)` extracted from a trace. -/
def reportRows (tr : List Event) : List (Nat × Nat × ℚ) :=
  tr.filterMap (fun e =>
    match e with
    | Event.writeLine c k s => some (c, k, s)
    | _ => none)

/-- Events of the submission phase. -/
def isSubmitEvent : Event → Bool
  | Event.createScript _ => true
  | Event.submit _ => true
  | _ => false

/-- Events of the polling phase. -/
def isPollEvent : Event → Bool
  | Event.poll _ _ => true
  | _ => false

/-- Events of the reporting phase. -/
def isReportEvent : Event → Bool
  | Event.readTime _ => true
  | Event.writeLine _ _ _ => true
  | _ => false

/-- CPU count of a submission event. -/
def submitEventCpu : Event → Option Nat
  | Event.submit c => some c
  | _ => none

/-- CPU count of a report line event. -/
def writeLineCpu : Event → Option Nat
  | Event.writeLine c _ _ => some c
  | _ => none

/-- CPU count of a polling event. -/
def pollEventCpu : Event → Option Nat
  | Event.poll c _ => some c
  | _ => none

end SingleJobs

/-! ### Statement vocabulary for the duration-string grammar -/

/-- Text of an optional duration segment: the numeral followed by its marker
letter, or nothing. -/
def segStr (seg : Option (List Char)) (mark : Char) : List Char :=
  match seg with
  | none => []
  | some d => d ++ [mark]

/-- Value contributed by an optional integer segment (absent segments
contribute 0). -/
def segVal (seg : Option (List Char)) : ℚ :=
  match seg with
  | none => 0
  | some d => (natOfDigits d : ℚ)

/-- Value contributed by the optional fractional-seconds segment, carried as
(numeral text, its value). -/
def secVal (os : Option (List Char × ℚ)) : ℚ :=
  match os with
  | none => 0
  | some p => p.2

/-! ### Concrete inputs used to instantiate the claims -/

/-- A tab-split accounting row (11 columns) whose duration column reads
`"2h"`: name at index 3, duration at index 8, peak memory at index 10. -/
def c2row : List (List Char) :=
  [[], [], [], [], [], [], [], [], ['2', 'h'], [], []]

/-- The record the fixed-CPUs report computes for `c2row` with 4 CPUs. -/
def c2task : FixedCpus.TaskOut :=
  { name := []
    duration := ['2', 'h']
    duration_hours := 2
    peak_rss := "N/A".data
    su := 512
    cpus := 4
    total_cores := 256 }

/-- A row whose duration column reads `"5s"`. -/
def c10row : List (List Char) :=
  [[], [], [], [], [], [], [], [], ['5', 's'], [], []]

/-- The record the fixed-CPUs report computes for `c10row` with 1 CPU:
`5` seconds rounds to `0.00` hours, so the SU is 0. -/
def c10task : FixedCpus.TaskOut :=
  { name := []
    duration := ['5', 's']
    duration_hours := 0
    peak_rss := "N/A".data
    su := 0
    cpus := 1
    total_cores := 64 }

/-- A status oracle that reports `RUNNING` for the first two queries and
`COMPLETED` afterwards. -/
def statusesW : Nat → List Char :=
  fun i => if i < 2 then "RUNNING".data else "COMPLETED".data

/-- A concrete scheduler environment: submission succeeds for every CPU
count except 4 (non-zero exit), every job completes on the first status
query, and no wall-time file exists. -/
def sweepEnvW : SingleJobs.SchedEnv :=
  { submitRc := fun c => if c = 4 then 1 else 0
    submitOut := fun _ => "Submitted batch job 101".data
    submitErr := fun _ => "sbatch: error".data
    statuses := fun _ _ => "COMPLETED".data
    timeFile := fun _ => none }

/-- The trace `mainSweep sweepEnvW [2, 4] 5` produces: both CPU counts are
submitted, only CPU count 2 (job 101) is polled, and both get report lines
with zero wall time. -/
def sweepTrW : List SingleJobs.Event :=
  [SingleJobs.Event.createScript 2, SingleJobs.Event.submit 2,
    SingleJobs.Event.createScript 4, SingleJobs.Event.submit 4,
    SingleJobs.Event.poll 2 ['1', '0', '1'],
    SingleJobs.Event.readTime 2,
    SingleJobs.Event.writeLine 2 128 (SingleJobs.calculate_su 2 64 0 1),
    SingleJobs.Event.readTime 4,
    SingleJobs.Event.writeLine 4 256 (SingleJobs.calculate_su 4 64 0 1)]

/-! ### Helper lemmas about the Python string builtins -/

theorem containsChar_of_mem {c : Char} {l : List Char} (h : c ∈ l) :
    containsChar c l = true := by
  simp only [containsChar, List.any_eq_true]
  exact ⟨c, h, by simp⟩

theorem dropWhile_eq_self_of_not {p : Char → Bool} {l : List Char}
    (h : ∀ c ∈ l, p c = false) : l.dropWhile p = l := by
  cases l with
  | nil => rfl
  | cons c cs =>
    rw [List.dropWhile_cons]
    simp [h c (by simp)]

theorem pystrip_eq_self {l : List Char} (h : ∀ c ∈ l, pySpace c = false) :
    pystrip l = l := by
  unfold pystrip
  rw [dropWhile_eq_self_of_not h, dropWhile_eq_self_of_not, List.reverse_reverse]
  intro c hc
  exact h c (by simpa using hc)

theorem containsChar_eq_false {c : Char} {l : List Char} (h : ∀ x ∈ l, x ≠ c) :
    containsChar c l = false := by
  simp only [containsChar, List.any_eq_false]
  intro x hx
  simpa using h x hx

theorem containsChar_append (c : Char) (a b : List Char) :
    containsChar c (a ++ b) = (containsChar c a || containsChar c b) := by
  simp [containsChar]

theorem pysplit_of_not_mem {c : Char} {l : List Char} (h : ∀ x ∈ l, x ≠ c) :
    pysplit c l = [l] := by
  induction l with
  | nil => rfl
  | cons x xs ih =>
    have hx : (x == c) = false := by simpa using h x (by simp)
    have ihs : pysplit c xs = [xs] := ih (fun y hy => h y (by simp [hy]))
    simp [pysplit, hx, ihs]

theorem pysplit_append {c : Char} {a b : List Char} (h : ∀ x ∈ a, x ≠ c) :
    pysplit c (a ++ c :: b) = a :: pysplit c b := by
  induction a with
  | nil => simp [pysplit]
  | cons x xs ih =>
    have hx : (x == c) = false := by simpa using h x (by simp)
    have ihs := ih (fun y hy => h y (by simp [hy]))
    have hne : pysplit c (xs ++ c :: b) ≠ [] := by
      rw [ihs]; simp
    cases hsp : pysplit c (xs ++ c :: b) with
    | nil => exact absurd hsp hne
    | cons g gs =>
      rw [hsp] at ihs
      cases ihs
      simp [pysplit, hx, hsp]

theorem pySpace_not_digit {c : Char} (h : pySpace c = true) : c.isDigit = false := by
  simp only [pySpace, Bool.or_eq_true, beq_iff_eq] at h
  rcases h with (((((rfl | rfl) | rfl) | rfl) | rfl) | rfl) <;> decide

theorem isDigit_not_space {c : Char} (h : c.isDigit = true) : pySpace c = false := by
  cases hs : pySpace c with
  | false => rfl
  | true => rw [pySpace_not_digit hs] at h; cases h

theorem isDigDot_not_space {c : Char} (h : isDigDot c = true) : pySpace c = false := by
  simp only [isDigDot, Bool.or_eq_true, beq_iff_eq] at h
  rcases h with h | rfl
  · exact isDigit_not_space h
  · decide

theorem pyint_digits {d : List Char} (h1 : d ≠ []) (h2 : ∀ c ∈ d, c.isDigit = true) :
    pyint d = some (natOfDigits d : Int) := by
  have hst : pystrip d = d :=
    pystrip_eq_self (fun c hc => isDigit_not_space (h2 c hc))
  have hall : d.all Char.isDigit = true := by
    simp only [List.all_eq_true]
    exact h2
  unfold pyint
  rw [hst]
  cases d with
  | nil => exact absurd rfl h1
  | cons c cs =>
    have hcd : c.isDigit = true := h2 c (by simp)
    have hc1 : c ≠ '-' := by rintro rfl; cases hcd
    have hc2 : c ≠ '+' := by rintro rfl; cases hcd
    split
    · rename_i heq
      cases heq
      exact absurd rfl hc1
    · rename_i heq
      cases heq
      exact absurd rfl hc2
    · simp [hall]

theorem pyfloat_digdot {d : List Char} (h : ∀ c ∈ d, isDigDot c = true) :
    pyfloat d = decValue d := by
  have hst : pystrip d = d :=
    pystrip_eq_self (fun c hc => isDigDot_not_space (h c hc))
  unfold pyfloat
  rw [hst]
  cases d with
  | nil => rfl
  | cons c cs =>
    have hcd : isDigDot c = true := h c (by simp)
    have hc1 : c ≠ '-' := by rintro rfl; exact absurd hcd (by decide)
    have hc2 : c ≠ '+' := by rintro rfl; exact absurd hcd (by decide)
    split
    · rename_i heq
      cases heq
      exact absurd rfl hc1
    · rename_i heq
      cases heq
      exact absurd rfl hc2
    · rfl

theorem isDigit_ne_marker {c : Char} (h : c.isDigit = true) :
    c ≠ 'h' ∧ c ≠ 'm' ∧ c ≠ 's' := by
  refine ⟨?_, ?_, ?_⟩ <;> rintro rfl <;> exact absurd h (by decide)

theorem isDigDot_ne_marker {c : Char} (h : isDigDot c = true) :
    c ≠ 'h' ∧ c ≠ 'm' ∧ c ≠ 's' := by
  refine ⟨?_, ?_, ?_⟩ <;> rintro rfl <;> exact absurd h (by decide)

/-! ### Step lemmas for `convert_time_to_hours` -/

theorem unitStep_absent {mark : Char} {l : List Char} (h : ∀ x ∈ l, x ≠ mark) :
    unitStep mark l = some (0, l) := by
  unfold unitStep
  rw [containsChar_eq_false h]
  simp

theorem unitStep_present {mark : Char} {d rest : List Char} {n : Int}
    (hd : ∀ x ∈ d, x ≠ mark) (hrest : ∀ x ∈ rest, x ≠ mark)
    (hsd : pystrip d = d) (hn : pyint d = some n) (hsr : pystrip rest = rest) :
    unitStep mark (d ++ mark :: rest) = some (n, rest) := by
  have hc : containsChar mark (d ++ mark :: rest) = true :=
    containsChar_of_mem (by simp)
  have hsplit : pysplit mark (d ++ mark :: rest) = d :: pysplit mark rest :=
    pysplit_append hd
  rw [pysplit_of_not_mem hrest] at hsplit
  unfold unitStep
  rw [hc, hsplit]
  simp [hsd, hn, hsr]

theorem secondStep_absent {l : List Char} (h : ∀ x ∈ l, x ≠ 's') :
    secondStep l = some 0 := by
  unfold secondStep
  rw [containsChar_eq_false h]
  simp

theorem secondStep_present {d : List Char} (hd : ∀ x ∈ d, x ≠ 's')
    (hsd : pystrip d = d) :
    secondStep (d ++ ['s']) = pyfloat d := by
  have hc : containsChar 's' (d ++ ['s']) = true := containsChar_of_mem (by simp)
  have hsplit : pysplit 's' (d ++ 's' :: ([] : List Char)) = d :: pysplit 's' [] :=
    pysplit_append hd
  unfold secondStep
  rw [hc, show d ++ ['s'] = d ++ 's' :: ([] : List Char) from rfl, hsplit]
  simp [hsd, pysplit]

theorem mem_segStr {x mark : Char} {seg : Option (List Char)}
    (h : x ∈ segStr seg mark) : (∃ d, seg = some d ∧ x ∈ d) ∨ x = mark := by
  cases seg with
  | none => cases h
  | some d =>
    rcases List.mem_append.mp h with h | h
    · exact Or.inl ⟨d, rfl, h⟩
    · right; simpa using h

/-- For every well-formed segmented duration string, `convert_time_to_hours`
returns `hours + minutes/60 + seconds/3600` (shared helper). -/
theorem convert_segments : ∀ (oh om : Option (List Char)) (os : Option (List Char × ℚ)),
    (∀ d ∈ oh, d ≠ [] ∧ ∀ c ∈ d, c.isDigit = true) →
    (∀ d ∈ om, d ≠ [] ∧ ∀ c ∈ d, c.isDigit = true) →
    (∀ p ∈ os, (∀ c ∈ p.1, isDigDot c = true) ∧ decValue p.1 = some p.2) →
    convert_time_to_hours
        (segStr oh 'h' ++ (segStr om 'm' ++ segStr (os.map Prod.fst) 's'))
      = some (segVal oh + segVal om / 60 + secVal os / 3600) := by
  intro oh om os hoh hom hos
  have hmchars : ∀ x ∈ segStr om 'm', (x.isDigit = true ∨ x = 'm') := by
    intro x hx
    rcases mem_segStr hx with ⟨d, hd, hxd⟩ | rfl
    · exact Or.inl ((hom d (by rw [hd]; rfl)).2 x hxd)
    · exact Or.inr rfl
  have hschars : ∀ x ∈ segStr (os.map Prod.fst) 's', (isDigDot x = true ∨ x = 's') := by
    intro x hx
    rcases mem_segStr hx with ⟨d, hd, hxd⟩ | rfl
    · rcases os with _ | p
      · cases hd
      · have hd2 : p.1 = d := by simpa using hd
        subst hd2
        exact Or.inl ((hos p rfl).1 x hxd)
    · exact Or.inr rfl
  have hs_ne_m : ∀ x ∈ segStr (os.map Prod.fst) 's', x ≠ 'm' := by
    intro x hx
    rcases hschars x hx with h | rfl
    · exact (isDigDot_ne_marker h).2.1
    · decide
  have hs_ne_h : ∀ x ∈ segStr (os.map Prod.fst) 's', x ≠ 'h' := by
    intro x hx
    rcases hschars x hx with h | rfl
    · exact (isDigDot_ne_marker h).1
    · decide
  have hs_nospace : ∀ x ∈ segStr (os.map Prod.fst) 's', pySpace x = false := by
    intro x hx
    rcases hschars x hx with h | rfl
    · exact isDigDot_not_space h
    · decide
  have hsstrip : pystrip (segStr (os.map Prod.fst) 's') = segStr (os.map Prod.fst) 's' :=
    pystrip_eq_self hs_nospace
  have hstep3 : secondStep (segStr (os.map Prod.fst) 's') = some (secVal os) := by
    rcases os with _ | ⟨sd, sv⟩
    · exact secondStep_absent (fun x hx => by cases hx)
    · have hdd : ∀ c ∈ sd, isDigDot c = true := (hos (sd, sv) rfl).1
      have hsd_ne : ∀ x ∈ sd, x ≠ 's' := fun x hx => (isDigDot_ne_marker (hdd x hx)).2.2
      have hsd_strip : pystrip sd = sd :=
        pystrip_eq_self (fun c hc => isDigDot_not_space (hdd c hc))
      show secondStep (sd ++ ['s']) = some sv
      rw [secondStep_present hsd_ne hsd_strip, pyfloat_digdot hdd]
      exact (hos (sd, sv) rfl).2
  have hmain2 : ∃ k : Int, unitStep 'm' (segStr om 'm' ++ segStr (os.map Prod.fst) 's')
      = some (k, segStr (os.map Prod.fst) 's') ∧ (k : ℚ) = segVal om := by
    rcases om with _ | md
    · refine ⟨0, ?_, by simp [segVal]⟩
      show unitStep 'm' ([] ++ segStr (os.map Prod.fst) 's') = _
      rw [List.nil_append]
      exact unitStep_absent hs_ne_m
    · have hdd : ∀ c ∈ md, c.isDigit = true := (hom md rfl).2
      have hmd_ne : ∀ x ∈ md, x ≠ 'm' := fun x hx => (isDigit_ne_marker (hdd x hx)).2.1
      have hmd_strip : pystrip md = md :=
        pystrip_eq_self (fun c hc => isDigit_not_space (hdd c hc))
      refine ⟨(natOfDigits md : Int), ?_, by simp [segVal]⟩
      show unitStep 'm' ((md ++ ['m']) ++ segStr (os.map Prod.fst) 's') = _
      rw [List.append_assoc, List.singleton_append]
      exact unitStep_present hmd_ne hs_ne_m hmd_strip
        (pyint_digits (hom md rfl).1 hdd) hsstrip
  obtain ⟨mk, hstep2, hmkval⟩ := hmain2
  have ht_ne_h : ∀ x ∈ segStr om 'm' ++ segStr (os.map Prod.fst) 's', x ≠ 'h' := by
    intro x hx
    rcases List.mem_append.mp hx with hx | hx
    · rcases hmchars x hx with h | rfl
      · exact (isDigit_ne_marker h).1
      · decide
    · exact hs_ne_h x hx
  have ht_nospace : ∀ x ∈ segStr om 'm' ++ segStr (os.map Prod.fst) 's',
      pySpace x = false := by
    intro x hx
    rcases List.mem_append.mp hx with hx | hx
    · rcases hmchars x hx with h | rfl
      · exact isDigit_not_space h
      · decide
    · exact hs_nospace x hx
  have htstrip : pystrip (segStr om 'm' ++ segStr (os.map Prod.fst) 's')
      = segStr om 'm' ++ segStr (os.map Prod.fst) 's' :=
    pystrip_eq_self ht_nospace
  have hmain1 : ∃ k : Int, unitStep 'h'
      (segStr oh 'h' ++ (segStr om 'm' ++ segStr (os.map Prod.fst) 's'))
      = some (k, segStr om 'm' ++ segStr (os.map Prod.fst) 's') ∧ (k : ℚ) = segVal oh := by
    rcases oh with _ | hd
    · refine ⟨0, ?_, by simp [segVal]⟩
      show unitStep 'h' ([] ++ _) = _
      rw [List.nil_append]
      exact unitStep_absent ht_ne_h
    · have hdd : ∀ c ∈ hd, c.isDigit = true := (hoh hd rfl).2
      have hhd_ne : ∀ x ∈ hd, x ≠ 'h' := fun x hx => (isDigit_ne_marker (hdd x hx)).1
      have hhd_strip : pystrip hd = hd :=
        pystrip_eq_self (fun c hc => isDigit_not_space (hdd c hc))
      refine ⟨(natOfDigits hd : Int), ?_, by simp [segVal]⟩
      show unitStep 'h' ((hd ++ ['h']) ++ _) = _
      rw [List.append_assoc, List.singleton_append]
      exact unitStep_present hhd_ne ht_ne_h hhd_strip
        (pyint_digits (hoh hd rfl).1 hdd) htstrip
  obtain ⟨hk, hstep1, hhkval⟩ := hmain1
  unfold convert_time_to_hours
  simp only [hstep1, hstep2, hstep3]
  rw [← hhkval, ← hmkval]

/-- Claim C1: for every duration string built from an optional integer hour
segment marked `h`, an optional integer minute segment marked `m`, and an
optional fractional second segment marked `s`, in that order,
`convert_time_to_hours` returns `hours + minutes/60 + seconds/3600`, absent
segments contributing 0; a string containing none of `h`, `m`, `s` returns
0; `"1h30m0s"` yields 1.5 and `"0h0m90s"` yields 0.025. -/
theorem convert_time_to_hours_spec :
    (∀ (oh om : Option (List Char)) (os : Option (List Char × ℚ)),
      (∀ d ∈ oh, d ≠ [] ∧ ∀ c ∈ d, c.isDigit = true) →
      (∀ d ∈ om, d ≠ [] ∧ ∀ c ∈ d, c.isDigit = true) →
      (∀ p ∈ os, (∀ c ∈ p.1, isDigDot c = true) ∧ decValue p.1 = some p.2) →
      convert_time_to_hours
          (segStr oh 'h' ++ (segStr om 'm' ++ segStr (os.map Prod.fst) 's'))
        = some (segVal oh + segVal om / 60 + secVal os / 3600))
    ∧ (∀ l : List Char, (∀ c ∈ l, c ≠ 'h' ∧ c ≠ 'm' ∧ c ≠ 's') →
        convert_time_to_hours l = some 0)
    ∧ convert_time_to_hours "1h30m0s".data = some (3 / 2)
    ∧ convert_time_to_hours "0h0m90s".data = some (1 / 40) := by
  refine ⟨convert_segments, ?_, ?_, ?_⟩
  · intro l hl
    have h1 : ∀ x ∈ l, x ≠ 'h' := fun x hx => (hl x hx).1
    have h2 : ∀ x ∈ l, x ≠ 'm' := fun x hx => (hl x hx).2.1
    have h3 : ∀ x ∈ l, x ≠ 's' := fun x hx => (hl x hx).2.2
    unfold convert_time_to_hours
    simp only [unitStep_absent h1, unitStep_absent h2, secondStep_absent h3]
    norm_num
  · have h1 := convert_segments (some ['1']) (some ['3', '0']) (some (['0'], (natOfDigits ['0'] : ℚ)))
      (by intro d hd; simp at hd; subst hd; exact ⟨by simp, by decide⟩)
      (by intro d hd; simp at hd; subst hd; exact ⟨by simp, by decide⟩)
      (by intro p hp; simp at hp; subst hp; exact ⟨by decide, rfl⟩)
    have h2 : convert_time_to_hours "1h30m0s".data
        = some (segVal (some ['1']) + segVal (some ['3', '0']) / 60
            + secVal (some (['0'], (natOfDigits ['0'] : ℚ))) / 3600) := h1
    rw [h2]
    congr 1
    simp only [segVal, secVal]
    rw [show natOfDigits ['1'] = 1 from by decide, show natOfDigits ['3', '0'] = 30 from by decide,
        show natOfDigits ['0'] = 0 from by decide]
    push_cast
    norm_num
  · have h1 := convert_segments (some ['0']) (some ['0']) (some (['9', '0'], (natOfDigits ['9', '0'] : ℚ)))
      (by intro d hd; simp at hd; subst hd; exact ⟨by simp, by decide⟩)
      (by intro d hd; simp at hd; subst hd; exact ⟨by simp, by decide⟩)
      (by intro p hp; simp at hp; subst hp; exact ⟨by decide, rfl⟩)
    have h2 : convert_time_to_hours "0h0m90s".data
        = some (segVal (some ['0']) + segVal (some ['0']) / 60
            + secVal (some (['9', '0'], (natOfDigits ['9', '0'] : ℚ))) / 3600) := h1
    rw [h2]
    congr 1
    simp only [segVal, secVal]
    rw [show natOfDigits ['0'] = 0 from by decide, show natOfDigits ['9', '0'] = 90 from by decide]
    push_cast
    norm_num

/-- Witness for C1: the quantified part applied to `"2h5m30s"`. -/
theorem convert_time_to_hours_spec_witness :
    convert_time_to_hours "2h5m30s".data = some (251 / 120) := by
  have h1 := convert_time_to_hours_spec.1 (some ['2']) (some ['5'])
      (some (['3', '0'], (natOfDigits ['3', '0'] : ℚ)))
      (by intro d hd; simp at hd; subst hd; exact ⟨by simp, by decide⟩)
      (by intro d hd; simp at hd; subst hd; exact ⟨by simp, by decide⟩)
      (by intro p hp; simp at hp; subst hp; exact ⟨by decide, rfl⟩)
  have h2 : convert_time_to_hours "2h5m30s".data = some (segVal (some ['2'])
      + segVal (some ['5']) / 60
      + secVal (some (['3', '0'], (natOfDigits ['3', '0'] : ℚ))) / 3600) := h1
  rw [h2]
  congr 1
  simp only [segVal, secVal]
  rw [show natOfDigits ['2'] = 2 from by decide, show natOfDigits ['5'] = 5 from by decide,
      show natOfDigits ['3', '0'] = 30 from by decide]
  push_cast
  norm_num

theorem convert_2h : convert_time_to_hours ['2', 'h'] = some 2 := by
  have h1 := convert_segments (some ['2']) none none
    (by intro d hd; simp at hd; subst hd; exact ⟨by simp, by decide⟩)
    (by intro d hd; simp at hd)
    (by intro p hp; simp at hp)
  have h2 : convert_time_to_hours ['2', 'h']
      = some (segVal (some ['2']) + segVal none / 60 + secVal none / 3600) := h1
  rw [h2]
  congr 1
  simp only [segVal, secVal]
  rw [show natOfDigits ['2'] = 2 from by decide]
  push_cast
  norm_num

theorem convert_1h : convert_time_to_hours ['1', 'h'] = some 1 := by
  have h1 := convert_segments (some ['1']) none none
    (by intro d hd; simp at hd; subst hd; exact ⟨by simp, by decide⟩)
    (by intro d hd; simp at hd)
    (by intro p hp; simp at hp)
  have h2 : convert_time_to_hours ['1', 'h']
      = some (segVal (some ['1']) + segVal none / 60 + secVal none / 3600) := h1
  rw [h2]
  congr 1
  simp only [segVal, secVal]
  rw [show natOfDigits ['1'] = 1 from by decide]
  push_cast
  norm_num

theorem convert_5s : convert_time_to_hours ['5', 's'] = some (1 / 720) := by
  have h1 := convert_segments none none (some (['5'], (natOfDigits ['5'] : ℚ)))
    (by intro d hd; simp at hd)
    (by intro d hd; simp at hd)
    (by intro p hp; simp at hp; subst hp; exact ⟨by decide, rfl⟩)
  have h2 : convert_time_to_hours ['5', 's']
      = some (segVal none + segVal none / 60
          + secVal (some (['5'], (natOfDigits ['5'] : ℚ))) / 3600) := h1
  rw [h2]
  congr 1
  simp only [segVal, secVal]
  rw [show natOfDigits ['5'] = 5 from by decide]
  push_cast
  norm_num

theorem removeParens_nil : removeParens [] = [] := by
  rw [removeParens.eq_def]

theorem clean_name_nil : clean_name [] = [] := by
  unfold clean_name
  rw [removeParens_nil]
  rfl

theorem processRow_c2 : FixedCpus.processRow 4 c2row = some c2task := by
  unfold FixedCpus.processRow c2row
  simp only [List.getElem?_cons_zero, List.getElem?_cons_succ, convert_2h]
  unfold c2task
  simp only [Option.some.injEq, FixedCpus.TaskOut.mk.injEq, clean_name_nil]
  and_intros <;> first | rfl | norm_num [pyround2, pyround]

theorem processRow_c10 : FixedCpus.processRow 1 c10row = some c10task := by
  unfold FixedCpus.processRow c10row
  simp only [List.getElem?_cons_zero, List.getElem?_cons_succ, convert_5s]
  unfold c10task
  simp only [Option.some.injEq, FixedCpus.TaskOut.mk.injEq, clean_name_nil]
  and_intros <;> first | rfl | norm_num [pyround2, pyround]

/-- Claim C2: in the fixed-CPUs report, every record's service-unit value
equals `duration_hours * cores_per_cpu * cpu_count` with
`cores_per_cpu = 64`; for a record with `duration_hours = 2` and
`cpu_count = 4` the SU is 512. -/
theorem fixed_su_model_spec :
    (∀ (cpus : Nat) (row : List (List Char)) (t : FixedCpus.TaskOut),
      FixedCpus.processRow cpus row = some t →
      t.su = t.duration_hours * 64 * (cpus : ℚ) ∧ t.cpus = cpus)
    ∧ (FixedCpus.processRow 4 c2row).map FixedCpus.TaskOut.duration_hours = some 2
    ∧ (FixedCpus.processRow 4 c2row).map FixedCpus.TaskOut.su = some 512 := by
  refine ⟨?_, by rw [processRow_c2]; rfl, by rw [processRow_c2]; rfl⟩
  intro cpus row t h
  unfold FixedCpus.processRow at h
  split at h
  · split at h
    · exact absurd h (by simp)
    · rename_i q hq
      rw [Option.some.injEq] at h
      subst h
      refine ⟨?_, rfl⟩
      show pyround2 q * ((64 : ℕ) * (cpus : ℚ)) = pyround2 q * 64 * (cpus : ℚ)
      push_cast
      ring
  · exact absurd h (by simp)

/-- Witness for C2: the quantified part applied to the concrete row with a
two-hour duration and 4 CPUs. -/
theorem fixed_su_model_spec_witness :
    FixedCpus.processRow 4 c2row = some c2task
      ∧ c2task.su = c2task.duration_hours * 64 * ((4 : ℕ) : ℚ)
      ∧ c2task.cpus = 4 :=
  ⟨processRow_c2, (fixed_su_model_spec.1 4 c2row c2task processRow_c2).1,
    (fixed_su_model_spec.1 4 c2row c2task processRow_c2).2⟩

/-- Claim C10: the fixed-CPUs report rounds the parsed duration to 2 decimal
places before computing SU, so the reported SU equals
`round2(convert_time_to_hours(duration)) * 64 * cpu_count`; for the duration
`"5s"` this differs from the unrounded product
`convert_time_to_hours("5s") * 64 * cpu_count`. -/
theorem fixed_su_rounding_spec :
    (∀ (cpus : Nat) (row : List (List Char)) (t : FixedCpus.TaskOut) (dur : List Char) (q : ℚ),
      FixedCpus.processRow cpus row = some t →
      row[8]? = some dur →
      convert_time_to_hours dur = some q →
      t.su = pyround2 q * 64 * (cpus : ℚ))
    ∧ convert_time_to_hours "5s".data = some (1 / 720)
    ∧ (FixedCpus.processRow 1 c10row).map FixedCpus.TaskOut.su = some 0
    ∧ (1 / 720 : ℚ) * 64 * 1 ≠ 0 := by
  refine ⟨?_, convert_5s, by rw [processRow_c10]; rfl, by norm_num⟩
  intro cpus row t dur q h h8 hq
  unfold FixedCpus.processRow at h
  split at h
  · rename_i nm dur0 mem h3 h8' h10
    rw [h8'] at h8
    rw [Option.some.injEq] at h8
    subst h8
    split at h
    · exact absurd h (by simp)
    · rename_i q0 hq0
      rw [hq0] at hq
      rw [Option.some.injEq] at hq
      subst hq
      rw [Option.some.injEq] at h
      subst h
      show pyround2 q0 * ((64 : ℕ) * (cpus : ℚ)) = pyround2 q0 * 64 * (cpus : ℚ)
      push_cast
      ring
  · exact absurd h (by simp)

/-- Witness for C10: the quantified part applied to the `"5s"` row with one
CPU, where the rounded SU is 0 while the unrounded product is not. -/
theorem fixed_su_rounding_spec_witness :
    FixedCpus.processRow 1 c10row = some c10task
      ∧ c10row[8]? = some ['5', 's']
      ∧ convert_time_to_hours ['5', 's'] = some (1 / 720)
      ∧ c10task.su = pyround2 (1 / 720) * 64 * ((1 : ℕ) : ℚ) :=
  ⟨processRow_c10, rfl, convert_5s,
    fixed_su_rounding_spec.1 1 c10row c10task ['5', 's'] (1 / 720)
      processRow_c10 rfl convert_5s⟩

/-- Claim C3: in the utilization-weighted model, `calculate_su` returns
`(cpu_percent / 100) * cores_per_cpu * duration_hours` and
`calculate_total_cores` returns `(cpu_percent / 100) * cores_per_cpu`;
`calculate_su` with 50%, 64 cores and a one-hour duration gives 32, and
`calculate_total_cores(50, 64) = 32`. -/
theorem utilization_su_spec :
    (∀ (p c : ℚ) (s : List Char),
      Pipeline.calculate_su p s c
        = (convert_time_to_hours s).map (fun d => p / 100 * c * d))
    ∧ (∀ p c : ℚ, Pipeline.calculate_total_cores p c = p / 100 * c)
    ∧ Pipeline.calculate_su 50 ['1', 'h'] 64 = some 32
    ∧ Pipeline.calculate_total_cores 50 64 = 32 := by
  refine ⟨?_, fun p c => rfl, ?_, by norm_num [Pipeline.calculate_total_cores]⟩
  · intro p c s
    unfold Pipeline.calculate_su
    cases convert_time_to_hours s <;> rfl
  · unfold Pipeline.calculate_su
    simp only [convert_1h]
    norm_num

theorem dropWhile_head_false {p : Char → Bool} {l rest : List Char} {c : Char}
    (h : l.dropWhile p = c :: rest) : p c = false := by
  induction l with
  | nil => cases h
  | cons a as ih =>
    rw [List.dropWhile_cons] at h
    cases hpa : p a with
    | true => rw [hpa] at h; simp at h; exact ih h
    | false =>
      rw [hpa] at h
      simp at h
      rw [← h.1]
      exact hpa

theorem pystrip_eq_nil_iff {l : List Char} :
    pystrip l = [] ↔ ∀ c ∈ l, pySpace c = true := by
  constructor
  · intro h
    have h1 : l.dropWhile pySpace = [] := by
      by_contra hne
      rcases hd : l.dropWhile pySpace with _ | ⟨c, rest⟩
      · exact hne hd
      · have hc : pySpace c = false := dropWhile_head_false hd
        unfold pystrip at h
        rw [hd] at h
        have h2 : (List.dropWhile pySpace (c :: rest).reverse).reverse = [] := h
        rw [List.reverse_eq_nil_iff, List.dropWhile_eq_nil_iff] at h2
        have hcmem : c ∈ (c :: rest).reverse := by simp
        have h3 := h2 c hcmem
        rw [hc] at h3
        cases h3
    rw [List.dropWhile_eq_nil_iff] at h1
    intro c hc
    exact h1 c hc
  · intro h
    unfold pystrip
    rw [List.dropWhile_eq_nil_iff.mpr (fun c hc => h c hc)]
    rfl

theorem matchSpaceWord_ne_nil {l u : List Char} (h : matchSpaceWord l = some u) :
    u ≠ [] := by
  unfold matchSpaceWord at h
  split at h
  · cases h
  · rename_i hw
    rw [Option.some.injEq] at h
    subst h
    simpa using hw

theorem matchValueUnit_ne_nil {s v u : List Char}
    (h : matchValueUnit s = some (v, u)) : v ≠ [] ∧ u ≠ [] := by
  induction s generalizing v u with
  | nil => cases h
  | cons c rest ih =>
    unfold matchValueUnit at h
    by_cases hc : isDigDot c = true
    · rw [if_pos hc] at h
      cases hm : matchValueUnit rest with
      | some p =>
        obtain ⟨v0, u0⟩ := p
        simp only [hm] at h
        rw [Option.some.injEq, Prod.mk.injEq] at h
        obtain ⟨hv, hu⟩ := h
        subst hv
        subst hu
        exact ⟨by simp, (ih hm).2⟩
      | none =>
        simp only [hm] at h
        cases hw : matchSpaceWord rest with
        | some u0 =>
          simp only [hw] at h
          rw [Option.some.injEq, Prod.mk.injEq] at h
          obtain ⟨hv, hu⟩ := h
          subst hv
          subst hu
          exact ⟨by simp, matchSpaceWord_ne_nil hw⟩
        | none =>
          simp only [hw] at h
          cases h
    · rw [if_neg hc] at h
      cases h

/-- Claim C4: `format_memory` returns the `'N/A'` sentinel exactly when the
input is empty or whitespace-only (the only other input mapped to the string
`"N/A"` is the literal `"N/A"` itself, returned unchanged by the no-match
branch); when the pattern `([\d.]+)\s*(\w+)` matches a leading numeric value,
optional whitespace and a unit token, the value and unit are joined by a
single space; otherwise the input is returned unchanged. The embedding is a
total function, reflecting that `format_memory` never raises. -/
theorem format_memory_spec :
    (∀ s : List Char, (∀ c ∈ s, pySpace c = true) → format_memory s = "N/A".data)
    ∧ (∀ s v u : List Char, ¬(∀ c ∈ s, pySpace c = true) →
        matchValueUnit s = some (v, u) → format_memory s = v ++ ' ' :: u)
    ∧ (∀ s : List Char, ¬(∀ c ∈ s, pySpace c = true) →
        matchValueUnit s = none → format_memory s = s)
    ∧ (∀ s : List Char, format_memory s = "N/A".data →
        (∀ c ∈ s, pySpace c = true) ∨ s = "N/A".data)
    ∧ format_memory "".data = "N/A".data
    ∧ format_memory "   ".data = "N/A".data
    ∧ format_memory "512.5MB".data = "512.5 MB".data
    ∧ format_memory "garbled!!".data = "garbled!!".data := by
  have hblank : ∀ s : List Char, (∀ c ∈ s, pySpace c = true) →
      format_memory s = "N/A".data := by
    intro s h
    unfold format_memory
    rw [if_pos]
    rw [pystrip_eq_nil_iff.mpr h]
    rfl
  have hnotblank : ∀ s : List Char, ¬(∀ c ∈ s, pySpace c = true) →
      ((pystrip s).isEmpty = true) = False := by
    intro s hns
    simp only [eq_iff_iff, iff_false]
    intro hie
    exact hns (pystrip_eq_nil_iff.mp (List.isEmpty_iff.mp hie))
  have hmatch : ∀ s v u : List Char, ¬(∀ c ∈ s, pySpace c = true) →
      matchValueUnit s = some (v, u) → format_memory s = v ++ ' ' :: u := by
    intro s v u hns hm
    unfold format_memory
    rw [if_neg (by rw [hnotblank s hns]; exact id)]
    simp only [hm]
  have hnomatch : ∀ s : List Char, ¬(∀ c ∈ s, pySpace c = true) →
      matchValueUnit s = none → format_memory s = s := by
    intro s hns hm
    unfold format_memory
    rw [if_neg (by rw [hnotblank s hns]; exact id)]
    simp only [hm]
  refine ⟨hblank, hmatch, hnomatch, ?_, by decide, by decide, by decide, by decide⟩
  intro s hfm
  by_cases hb : ∀ c ∈ s, pySpace c = true
  · exact Or.inl hb
  · right
    cases hm : matchValueUnit s with
    | none => exact (hnomatch s hb hm).symm.trans hfm
    | some p =>
      obtain ⟨v, u⟩ := p
      have heq := (hmatch s v u hb hm).symm.trans hfm
      have hsp : (' ' : Char) ∈ v ++ ' ' :: u := by simp
      rw [heq] at hsp
      exact absurd hsp (by decide)

/-- Witness for C4: the match branch applied to `"512.5MB"`. -/
theorem format_memory_spec_witness :
    ¬(∀ c ∈ "512.5MB".data, pySpace c = true)
      ∧ matchValueUnit "512.5MB".data = some ("512.5".data, "MB".data)
      ∧ format_memory "512.5MB".data = "512.5".data ++ ' ' :: "MB".data :=
  ⟨by decide, by decide,
    format_memory_spec.2.1 "512.5MB".data "512.5".data "MB".data (by decide) (by decide)⟩

/-! ### Lemmas about the polling loop -/

theorem wait_go {statuses : Nat → List Char} :
    ∀ (fuel i slept j t : Nat),
      SingleJobs.wait_for_job_completion statuses fuel i slept = some (j, t) →
      i ≤ j ∧ SingleJobs.jobStatusTerminal (statuses j) = true
        ∧ (∀ k, i ≤ k → k < j → SingleJobs.jobStatusTerminal (statuses k) = false)
        ∧ t = slept + 10 * (j - i) := by
  intro fuel
  induction fuel with
  | zero => intro i slept j t h; cases h
  | succ fuel ih =>
    intro i slept j t h
    unfold SingleJobs.wait_for_job_completion at h
    by_cases hterm : SingleJobs.jobStatusTerminal (statuses i) = true
    · rw [if_pos hterm] at h
      rw [Option.some.injEq, Prod.mk.injEq] at h
      obtain ⟨h1, h2⟩ := h
      subst h1
      subst h2
      exact ⟨le_refl i, hterm, fun k hk1 hk2 => absurd hk1 (by omega), by omega⟩
    · rw [if_neg hterm] at h
      have hterm' : SingleJobs.jobStatusTerminal (statuses i) = false := by
        cases hx : SingleJobs.jobStatusTerminal (statuses i)
        · rfl
        · exact absurd hx hterm
      obtain ⟨h1, h2, h3, h4⟩ := ih (i + 1) (slept + 10) j t h
      refine ⟨by omega, h2, ?_, by omega⟩
      intro k hk1 hk2
      rcases Nat.eq_or_lt_of_le hk1 with rfl | hklt
      · exact hterm'
      · exact h3 k (by omega) hk2

theorem wait_none {statuses : Nat → List Char} :
    ∀ (fuel i slept : Nat),
      (∀ j, SingleJobs.jobStatusTerminal (statuses j) = false) →
      SingleJobs.wait_for_job_completion statuses fuel i slept = none := by
  intro fuel
  induction fuel with
  | zero => intro i slept _; rfl
  | succ fuel ih =>
    intro i slept h
    unfold SingleJobs.wait_for_job_completion
    rw [if_neg (by simp [h i])]
    exact ih (i + 1) (slept + 10) h

theorem wait_reaches {statuses : Nat → List Char} :
    ∀ (fuel i slept n : Nat), i ≤ n → n < i + fuel →
      SingleJobs.jobStatusTerminal (statuses n) = true →
      (∀ k, i ≤ k → k < n → SingleJobs.jobStatusTerminal (statuses k) = false) →
      SingleJobs.wait_for_job_completion statuses fuel i slept
        = some (n, slept + 10 * (n - i)) := by
  intro fuel
  induction fuel with
  | zero => intro i slept n h1 h2; omega
  | succ fuel ih =>
    intro i slept n h1 h2 hterm hbefore
    unfold SingleJobs.wait_for_job_completion
    rcases Nat.eq_or_lt_of_le h1 with rfl | hlt
    · rw [if_pos hterm]
      simp
    · rw [if_neg (by simp [hbefore i (le_refl i) hlt])]
      have := ih (i + 1) (slept + 10) n (by omega) (by omega) hterm
        (fun k hk1 hk2 => hbefore k (by omega) hk2)
      rw [this]
      have : slept + 10 + 10 * (n - (i + 1)) = slept + 10 * (n - i) := by omega
      rw [this]

/-- Claim C5: `wait_for_job_completion` returns control exactly when the
status text contains `COMPLETED`, `FAILED` or `CANCELLED` as a substring;
on every other status text (e.g. `RUNNING`, `PENDING`, empty output) it
sleeps a fixed 10 seconds and queries again, with no retry bound (for any
fuel, the loop is still running if no query was terminal). The embedding
interacts only with the status oracle. -/
theorem wait_for_job_completion_spec :
    (∀ (s : List Char), SingleJobs.jobStatusTerminal s
        = (containsSeq "COMPLETED".data (pystrip s)
            || containsSeq "FAILED".data (pystrip s)
            || containsSeq "CANCELLED".data (pystrip s)))
    ∧ (∀ (statuses : Nat → List Char) (fuel i t : Nat),
        SingleJobs.wait_for_job_completion statuses fuel 0 0 = some (i, t) →
        SingleJobs.jobStatusTerminal (statuses i) = true
          ∧ (∀ j < i, SingleJobs.jobStatusTerminal (statuses j) = false)
          ∧ t = 10 * i)
    ∧ (∀ (statuses : Nat → List Char) (n fuel : Nat),
        SingleJobs.jobStatusTerminal (statuses n) = true →
        (∀ k < n, SingleJobs.jobStatusTerminal (statuses k) = false) →
        n < fuel →
        SingleJobs.wait_for_job_completion statuses fuel 0 0 = some (n, 10 * n))
    ∧ (∀ (statuses : Nat → List Char) (fuel : Nat),
        (∀ j, SingleJobs.jobStatusTerminal (statuses j) = false) →
        SingleJobs.wait_for_job_completion statuses fuel 0 0 = none)
    ∧ SingleJobs.jobStatusTerminal "RUNNING".data = false
    ∧ SingleJobs.jobStatusTerminal "PENDING".data = false
    ∧ SingleJobs.jobStatusTerminal [] = false
    ∧ SingleJobs.jobStatusTerminal "COMPLETED".data = true
    ∧ SingleJobs.jobStatusTerminal "  FAILED  ".data = true
    ∧ SingleJobs.jobStatusTerminal "CANCELLED by 123".data = true := by
  refine ⟨fun s => rfl, ?_, ?_, ?_, by decide, by decide, by decide, by decide, by decide,
    by decide⟩
  · intro statuses fuel i t h
    obtain ⟨h1, h2, h3, h4⟩ := wait_go fuel 0 0 i t h
    exact ⟨h2, fun j hj => h3 j (Nat.zero_le j) hj, by omega⟩
  · intro statuses n fuel hterm hbefore hfuel
    have := wait_reaches fuel 0 0 n (Nat.zero_le n) (by omega) hterm
      (fun k _ hk2 => hbefore k hk2)
    rw [this]
    have h : 0 + 10 * (n - 0) = 10 * n := by omega
    rw [h]
  · intro statuses fuel h
    exact wait_none fuel 0 0 h

/-- Witness for C5: the loop observes `RUNNING` twice and returns on the
third query, having slept 20 seconds. -/
theorem wait_for_job_completion_spec_witness :
    SingleJobs.wait_for_job_completion statusesW 5 0 0 = some (2, 20)
      ∧ SingleJobs.jobStatusTerminal (statusesW 2) = true
      ∧ (∀ j < 2, SingleJobs.jobStatusTerminal (statusesW j) = false)
      ∧ 20 = 10 * 2 :=
  ⟨by decide, wait_for_job_completion_spec.2.1 statusesW 5 2 20 (by decide)⟩

/-! ### Lemmas about the sweep orchestrator -/

theorem leadsWith_refl_append (p b : List Char) : leadsWith p (p ++ b) = true := by
  induction p with
  | nil => rfl
  | cons c cs ih => simp [leadsWith, ih]

theorem containsSeq_of_leadsWith {pat l : List Char} (h : leadsWith pat l = true) :
    containsSeq pat l = true := by
  cases l with
  | nil => simpa [containsSeq] using h
  | cons c cs => simp [containsSeq, h]

theorem dictInsert_mem {k : Nat} {v : List Char} :
    ∀ {l : List (Nat × List Char)} {p : Nat × List Char},
      p ∈ dictInsert k v l → p.1 = k ∨ p ∈ l := by
  intro l
  induction l with
  | nil =>
    intro p hp
    simp only [dictInsert, List.mem_singleton] at hp
    subst hp
    exact Or.inl rfl
  | cons q rest ih =>
    intro p hp
    obtain ⟨k₀, v₀⟩ := q
    unfold dictInsert at hp
    by_cases hk : k₀ = k
    · rw [if_pos hk] at hp
      rcases List.mem_cons.mp hp with rfl | hp
      · exact Or.inl rfl
      · exact Or.inr (List.mem_cons_of_mem _ hp)
    · rw [if_neg hk] at hp
      rcases List.mem_cons.mp hp with rfl | hp
      · exact Or.inr (List.mem_cons_self _ _)
      · rcases ih hp with h | h
        · exact Or.inl h
        · exact Or.inr (List.mem_cons_of_mem _ h)

theorem submit_slurm_job_error {rc : Int} {stdout stderr : List Char}
    (h : rc ≠ 0 ∨ pysplitWs (pystrip stdout) = []) :
    containsSeq "Error".data (SingleJobs.submit_slurm_job rc stdout stderr) = true := by
  unfold SingleJobs.submit_slurm_job
  by_cases hrc : rc ≠ 0
  · rw [if_pos hrc]
    apply containsSeq_of_leadsWith
    show leadsWith "Error".data ("Error".data ++ (" submitting job: ".data ++ stderr)) = true
    exact leadsWith_refl_append _ _
  · rw [if_neg hrc]
    rcases h with h | h
    · exact absurd h hrc
    · simp only [h, List.getLast?_nil]
      decide

theorem submitPhase_excludes {env : SingleJobs.SchedEnv} {cpu : Nat}
    (herr : containsSeq "Error".data
      (SingleJobs.submit_slurm_job (env.submitRc cpu) (env.submitOut cpu)
        (env.submitErr cpu)) = true) :
    ∀ (cpus : List Nat) (acc : List (Nat × List Char)),
      (∀ p ∈ acc, p.1 ≠ cpu) →
      ∀ p ∈ (SingleJobs.submitPhase env cpus acc).1, p.1 ≠ cpu := by
  intro cpus
  induction cpus with
  | nil => intro acc hacc p hp; exact hacc p hp
  | cons c rest ih =>
    intro acc hacc p hp
    simp only [SingleJobs.submitPhase] at hp
    by_cases hcond : containsSeq "Error".data
        (SingleJobs.submit_slurm_job (env.submitRc c) (env.submitOut c)
          (env.submitErr c)) = true
    · rw [if_pos hcond] at hp
      exact ih acc hacc p hp
    · rw [if_neg hcond] at hp
      refine ih _ ?_ p hp
      intro q hq
      rcases dictInsert_mem hq with h1 | h1
      · intro hqc
        rw [hqc] at h1
        rw [← h1] at hcond
        exact hcond herr
      · exact hacc q h1

theorem submitPhase_events {env : SingleJobs.SchedEnv} :
    ∀ (cpus : List Nat) (acc : List (Nat × List Char)),
      (∀ e ∈ (SingleJobs.submitPhase env cpus acc).2, SingleJobs.isSubmitEvent e = true)
        ∧ (SingleJobs.submitPhase env cpus acc).2.filterMap SingleJobs.submitEventCpu = cpus
        ∧ SingleJobs.reportRows (SingleJobs.submitPhase env cpus acc).2 = [] := by
  intro cpus
  induction cpus with
  | nil =>
    intro acc
    exact ⟨fun e he => (by cases he), rfl, rfl⟩
  | cons c rest ih =>
    intro acc
    simp only [SingleJobs.submitPhase]
    refine ⟨?_, ?_, ?_⟩
    · intro e he
      simp only [List.mem_cons] at he
      rcases he with rfl | rfl | he
      · rfl
      · rfl
      · exact (ih _).1 e he
    · simp only [List.filterMap_cons, SingleJobs.submitEventCpu]
      rw [(ih _).2.1]
    · simp only [SingleJobs.reportRows, List.filterMap_cons]
      have := (ih (if containsSeq "Error".data
          (SingleJobs.submit_slurm_job (env.submitRc c) (env.submitOut c)
            (env.submitErr c)) = true then acc
        else dictInsert c (SingleJobs.submit_slurm_job (env.submitRc c) (env.submitOut c)
            (env.submitErr c)) acc)).2.2
      simpa [SingleJobs.reportRows] using this

theorem pollPhase_events {env : SingleJobs.SchedEnv} {fuel : Nat} :
    ∀ (ids : List (Nat × List Char)) (evs : List SingleJobs.Event),
      SingleJobs.pollPhase env fuel ids = some evs →
      (∀ e ∈ evs, SingleJobs.isPollEvent e = true)
        ∧ evs.filterMap SingleJobs.pollEventCpu = ids.map Prod.fst
        ∧ SingleJobs.reportRows evs = [] := by
  intro ids
  induction ids with
  | nil =>
    intro evs h
    have h2 : some ([] : List SingleJobs.Event) = some evs := h
    rw [Option.some.injEq] at h2
    subst h2
    exact ⟨fun e he => (by cases he), rfl, rfl⟩
  | cons q rest ih =>
    intro evs h
    obtain ⟨c, jid⟩ := q
    unfold SingleJobs.pollPhase at h
    cases hw : SingleJobs.wait_for_job_completion (env.statuses jid) fuel 0 0 with
    | none => simp only [hw] at h; cases h
    | some r =>
      simp only [hw] at h
      cases hr : SingleJobs.pollPhase env fuel rest with
      | none => simp only [hr] at h; cases h
      | some evs' =>
        simp only [hr, Option.map_some'] at h
        rw [Option.some.injEq] at h
        subst h
        obtain ⟨ih1, ih2, ih3⟩ := ih evs' hr
        refine ⟨?_, ?_, ?_⟩
        · intro e he
          rcases List.mem_cons.mp he with rfl | he
          · rfl
          · exact ih1 e he
        · simp only [List.filterMap_cons, SingleJobs.pollEventCpu, List.map_cons]
          rw [ih2]
        · simp only [SingleJobs.reportRows, List.filterMap_cons]
          simpa [SingleJobs.reportRows] using ih3

theorem reportPhase_events {env : SingleJobs.SchedEnv} :
    ∀ (cpus : List Nat) (evs : List SingleJobs.Event),
      SingleJobs.reportPhase env cpus = some evs →
      (∀ e ∈ evs, SingleJobs.isReportEvent e = true)
        ∧ evs.filterMap SingleJobs.writeLineCpu = cpus
        ∧ SingleJobs.reportRows evs
            = cpus.map (fun c => (c, c * 64,
                SingleJobs.calculate_su c 64
                  ((SingleJobs.read_wall_time (env.timeFile c)).getD 0) 1)) := by
  intro cpus
  induction cpus with
  | nil =>
    intro evs h
    have h2 : some ([] : List SingleJobs.Event) = some evs := h
    rw [Option.some.injEq] at h2
    subst h2
    exact ⟨fun e he => (by cases he), rfl, rfl⟩
  | cons c rest ih =>
    intro evs h
    unfold SingleJobs.reportPhase at h
    cases hw : SingleJobs.read_wall_time (env.timeFile c) with
    | none => simp only [hw] at h; cases h
    | some w =>
      simp only [hw] at h
      cases hr : SingleJobs.reportPhase env rest with
      | none => simp only [hr] at h; cases h
      | some evs' =>
        simp only [hr, Option.map_some'] at h
        rw [Option.some.injEq] at h
        subst h
        obtain ⟨ih1, ih2, ih3⟩ := ih evs' hr
        refine ⟨?_, ?_, ?_⟩
        · intro e he
          rcases List.mem_cons.mp he with rfl | he
          · rfl
          · rcases List.mem_cons.mp he with rfl | he
            · rfl
            · exact ih1 e he
        · simp only [List.filterMap_cons, SingleJobs.writeLineCpu]
          rw [ih2]
        · simp only [SingleJobs.reportRows, List.filterMap_cons, List.map_cons]
          rw [hw]
          simp only [Option.getD_some]
          congr 1

theorem mainSweep_eq {env : SingleJobs.SchedEnv} {cpus : List Nat} {fuel : Nat}
    {tr : List SingleJobs.Event} (h : SingleJobs.mainSweep env cpus fuel = some tr) :
    ∃ evs2 evs3,
      SingleJobs.pollPhase env fuel (SingleJobs.submitPhase env cpus []).1 = some evs2
        ∧ SingleJobs.reportPhase env cpus = some evs3
        ∧ tr = (SingleJobs.submitPhase env cpus []).2 ++ evs2 ++ evs3 := by
  unfold SingleJobs.mainSweep at h
  cases hp : SingleJobs.pollPhase env fuel (SingleJobs.submitPhase env cpus []).1 with
  | none => simp only [hp] at h; cases h
  | some evs2 =>
    simp only [hp] at h
    cases hr : SingleJobs.reportPhase env cpus with
    | none => simp only [hr] at h; cases h
    | some evs3 =>
      simp only [hr, Option.map_some'] at h
      rw [Option.some.injEq] at h
      exact ⟨evs2, evs3, rfl, rfl, h.symm⟩

theorem reportRows_append (a b : List SingleJobs.Event) :
    SingleJobs.reportRows (a ++ b) = SingleJobs.reportRows a ++ SingleJobs.reportRows b := by
  simp [SingleJobs.reportRows, List.filterMap_append]

/-- Claim C6: when the `sbatch` invocation exits non-zero or its standard
output holds no token, `submit_slurm_job` returns one of the two fixed error
strings — each containing `"Error"`, the marker the caller checks — instead
of a job ID (and, being total, does not raise); the orchestrator then keeps
that CPU count out of the CPU-count-to-job-ID mapping, so it is never
polled, while the final report still has one line per requested CPU count. -/
theorem submit_failure_spec :
    (∀ (rc : Int) (stdout stderr : List Char), rc ≠ 0 →
      SingleJobs.submit_slurm_job rc stdout stderr = "Error submitting job: ".data ++ stderr)
    ∧ (∀ (rc : Int) (stdout stderr : List Char), rc = 0 → pysplitWs (pystrip stdout) = [] →
        SingleJobs.submit_slurm_job rc stdout stderr
          = "Error: Failed to extract job ID from sbatch output.".data)
    ∧ (∀ (rc : Int) (stdout stderr : List Char),
        rc ≠ 0 ∨ pysplitWs (pystrip stdout) = [] →
        containsSeq "Error".data (SingleJobs.submit_slurm_job rc stdout stderr) = true)
    ∧ (∀ (env : SingleJobs.SchedEnv) (cpus : List Nat) (cpu : Nat),
        (env.submitRc cpu ≠ 0 ∨ pysplitWs (pystrip (env.submitOut cpu)) = []) →
        ∀ p ∈ (SingleJobs.submitPhase env cpus []).1, p.1 ≠ cpu)
    ∧ (∀ (env : SingleJobs.SchedEnv) (cpus : List Nat) (fuel : Nat)
        (tr : List SingleJobs.Event),
        SingleJobs.mainSweep env cpus fuel = some tr →
        (SingleJobs.reportRows tr).map (fun r => r.1) = cpus) := by
  refine ⟨?_, ?_, fun rc o e h => submit_slurm_job_error h, ?_, ?_⟩
  · intro rc stdout stderr h
    unfold SingleJobs.submit_slurm_job
    rw [if_pos h]
  · intro rc stdout stderr h1 h2
    unfold SingleJobs.submit_slurm_job
    rw [if_neg (by simp [h1]), h2, List.getLast?_nil]
  · intro env cpus cpu herr
    exact submitPhase_excludes (submit_slurm_job_error herr) cpus []
      (fun p hp => absurd hp (List.not_mem_nil p))
  · intro env cpus fuel tr h
    obtain ⟨evs2, evs3, hp, hr, htr⟩ := mainSweep_eq h
    subst htr
    rw [reportRows_append, reportRows_append, (submitPhase_events cpus []).2.2,
      (pollPhase_events _ evs2 hp).2.2, (reportPhase_events cpus evs3 hr).2.2]
    simp only [List.nil_append, List.map_map]
    exact List.map_id cpus

/-- Witness for C6: in `sweepEnvW` submission fails for CPU count 4, which
is excluded from the mapping, yet both CPU counts get report lines. -/
theorem submit_failure_spec_witness :
    sweepEnvW.submitRc 4 ≠ 0
      ∧ (∀ p ∈ (SingleJobs.submitPhase sweepEnvW [2, 4] []).1, p.1 ≠ 4)
      ∧ (SingleJobs.submitPhase sweepEnvW [2, 4] []).1 = [(2, ['1', '0', '1'])]
      ∧ SingleJobs.mainSweep sweepEnvW [2, 4] 5 = some sweepTrW
      ∧ (SingleJobs.reportRows sweepTrW).map (fun r => r.1) = [2, 4] :=
  ⟨by decide, submit_failure_spec.2.2.2.1 sweepEnvW [2, 4] 4 (Or.inl (by decide)), rfl, rfl,
    submit_failure_spec.2.2.2.2 sweepEnvW [2, 4] 5 sweepTrW rfl⟩

/-- Claim C7: a missing `job-<cpu>.time` file is caught — `read_wall_time`
returns 0 rather than raising — and the sweep's report row for that CPU
count is still written, showing SU = 0. -/
theorem missing_wall_time_spec :
    SingleJobs.read_wall_time none = some 0
    ∧ (∀ (env : SingleJobs.SchedEnv) (cpus : List Nat) (fuel : Nat)
        (tr : List SingleJobs.Event) (cpu : Nat),
        SingleJobs.mainSweep env cpus fuel = some tr →
        cpu ∈ cpus → env.timeFile cpu = none →
        (cpu, cpu * 64, (0 : ℚ)) ∈ SingleJobs.reportRows tr) := by
  refine ⟨rfl, ?_⟩
  intro env cpus fuel tr cpu h hmem htf
  obtain ⟨evs2, evs3, hp, hr, htr⟩ := mainSweep_eq h
  subst htr
  rw [reportRows_append, reportRows_append, (submitPhase_events cpus []).2.2,
    (pollPhase_events _ evs2 hp).2.2, (reportPhase_events cpus evs3 hr).2.2]
  simp only [List.nil_append]
  refine List.mem_map.mpr ⟨cpu, hmem, ?_⟩
  rw [htf]
  show (cpu, cpu * 64,
      SingleJobs.calculate_su cpu 64 ((SingleJobs.read_wall_time none).getD 0) 1)
    = (cpu, cpu * 64, (0 : ℚ))
  simp [SingleJobs.read_wall_time, SingleJobs.calculate_su]

/-- Witness for C7: CPU count 4 of `sweepEnvW` has no wall-time file, and
its report row carries SU = 0. -/
theorem missing_wall_time_spec_witness :
    SingleJobs.mainSweep sweepEnvW [2, 4] 5 = some sweepTrW
      ∧ 4 ∈ [2, 4]
      ∧ sweepEnvW.timeFile 4 = none
      ∧ (4, 4 * 64, (0 : ℚ)) ∈ SingleJobs.reportRows sweepTrW :=
  ⟨rfl, by decide, rfl,
    missing_wall_time_spec.2 sweepEnvW [2, 4] 5 sweepTrW 4 rfl (by decide) rfl⟩

/-- Claim C9: any completed sweep trace splits into three consecutive
phases: first script-generation/submission events covering every requested
CPU count in input order, then polling events for exactly the mapped
(successfully submitted) jobs in mapping order, and finally the reading and
report-line events, with exactly one report line per requested CPU count in
input order, ending the sweep. -/
theorem sweep_sequencing_spec :
    ∀ (env : SingleJobs.SchedEnv) (cpus : List Nat) (fuel : Nat)
      (tr : List SingleJobs.Event),
      SingleJobs.mainSweep env cpus fuel = some tr →
      ∃ t1 t2 t3, tr = t1 ++ t2 ++ t3
        ∧ (∀ e ∈ t1, SingleJobs.isSubmitEvent e = true)
        ∧ t1.filterMap SingleJobs.submitEventCpu = cpus
        ∧ (∀ e ∈ t2, SingleJobs.isPollEvent e = true)
        ∧ t2.filterMap SingleJobs.pollEventCpu
            = (SingleJobs.submitPhase env cpus []).1.map Prod.fst
        ∧ (∀ e ∈ t3, SingleJobs.isReportEvent e = true)
        ∧ t3.filterMap SingleJobs.writeLineCpu = cpus := by
  intro env cpus fuel tr h
  obtain ⟨evs2, evs3, hp, hr, htr⟩ := mainSweep_eq h
  exact ⟨(SingleJobs.submitPhase env cpus []).2, evs2, evs3, htr,
    (submitPhase_events cpus []).1, (submitPhase_events cpus []).2.1,
    (pollPhase_events _ evs2 hp).1, (pollPhase_events _ evs2 hp).2.1,
    (reportPhase_events cpus evs3 hr).1, (reportPhase_events cpus evs3 hr).2.1⟩

/-- Witness for C9: the concrete sweep over CPU counts `[2, 4]`. -/
theorem sweep_sequencing_spec_witness :
    SingleJobs.mainSweep sweepEnvW [2, 4] 5 = some sweepTrW
      ∧ (∃ t1 t2 t3, sweepTrW = t1 ++ t2 ++ t3
          ∧ (∀ e ∈ t1, SingleJobs.isSubmitEvent e = true)
          ∧ t1.filterMap SingleJobs.submitEventCpu = [2, 4]
          ∧ (∀ e ∈ t2, SingleJobs.isPollEvent e = true)
          ∧ t2.filterMap SingleJobs.pollEventCpu
              = (SingleJobs.submitPhase sweepEnvW [2, 4] []).1.map Prod.fst
          ∧ (∀ e ∈ t3, SingleJobs.isReportEvent e = true)
          ∧ t3.filterMap SingleJobs.writeLineCpu = [2, 4]) :=
  ⟨rfl, sweep_sequencing_spec sweepEnvW [2, 4] 5 sweepTrW rfl⟩

/-! ### Lemmas about placeholder substitution -/

theorem natToChars_digits : ∀ (n : Nat), ∀ c ∈ natToChars n, c.isDigit = true := by
  intro n
  induction n using Nat.strong_induction_on with
  | _ n ih =>
    intro c hc
    rw [natToChars] at hc
    split at hc
    · rename_i h
      simp only [List.mem_singleton] at hc
      subst hc
      interval_cases n <;> decide
    · rename_i h
      rcases List.mem_append.mp hc with hc | hc
      · exact ih (n / 10) (Nat.div_lt_self (by omega) (by decide)) c hc
      · simp only [List.mem_singleton] at hc
        subst hc
        have hk : n % 10 < 10 := Nat.mod_lt n (by omega)
        set k := n % 10 with hkdef
        clear_value k
        interval_cases k <;> decide

theorem natToChars_no_brace {n : Nat} : '{' ∉ natToChars n := by
  intro h
  exact absurd (natToChars_digits n '{' h) (by decide)

theorem replaceAll_head_no_match {pat repl : List Char} {c : Char} {l : List Char}
    (h : leadsWith pat (c :: l) = false) :
    replaceAll pat repl (c :: l) = c :: replaceAll pat repl l := by
  rw [replaceAll]
  rw [h]
  simp

theorem replaceAll_cons_ne {ps repl : List Char} {c : Char} {l : List Char} (hc : c ≠ '{') :
    replaceAll ('{' :: ps) repl (c :: l) = c :: replaceAll ('{' :: ps) repl l := by
  apply replaceAll_head_no_match
  have hbeq : ('{' == c) = false := by
    simp only [beq_eq_false_iff_ne, ne_eq]
    exact fun hx => hc hx.symm
  simp [leadsWith, hbeq]

theorem replaceAll_self_head {ps repl b : List Char} :
    replaceAll ('{' :: ps) repl (('{' :: ps) ++ b)
      = repl ++ replaceAll ('{' :: ps) repl b := by
  rw [show (('{' :: ps) ++ b) = '{' :: (ps ++ b) from rfl]
  rw [replaceAll]
  rw [show leadsWith ('{' :: ps) ('{' :: (ps ++ b)) = true from
    leadsWith_refl_append ('{' :: ps) b]
  simp [List.drop_left]

theorem replaceAll_skip {ps repl : List Char} :
    ∀ {a t : List Char}, '{' ∉ a →
      replaceAll ('{' :: ps) repl (a ++ t) = a ++ replaceAll ('{' :: ps) repl t := by
  intro a
  induction a with
  | nil => intro t _; rfl
  | cons c cs ih =>
    intro t h
    have hc : c ≠ '{' := fun hx => h (by rw [hx]; exact List.mem_cons_self _ _)
    rw [List.cons_append, replaceAll_cons_ne hc, ih (fun hx => h (List.mem_cons_of_mem c hx))]
    rfl

theorem replaceAll_no_open {ps repl : List Char} {l : List Char} (h : '{' ∉ l) :
    replaceAll ('{' :: ps) repl l = l := by
  have h2 : replaceAll ('{' :: ps) repl (l ++ []) = l ++ replaceAll ('{' :: ps) repl [] :=
    replaceAll_skip h
  rw [List.append_nil] at h2
  have hnil : replaceAll ('{' :: ps) repl ([] : List Char) = [] := by rw [replaceAll]
  rw [hnil, List.append_nil] at h2
  exact h2

theorem containsSeq_no_open {ps : List Char} :
    ∀ {l : List Char}, '{' ∉ l → containsSeq ('{' :: ps) l = false := by
  intro l
  induction l with
  | nil => intro _; rfl
  | cons c cs ih =>
    intro h
    have hc : c ≠ '{' := fun hx => h (by rw [hx]; exact List.mem_cons_self _ _)
    have hbeq : ('{' == c) = false := by
      simp only [beq_eq_false_iff_ne, ne_eq]
      exact fun hx => hc hx.symm
    simp [containsSeq, leadsWith, hbeq, ih (fun hx => h (List.mem_cons_of_mem c hx))]

theorem containsSeq_append_right {pat : List Char} (a : List Char) {b : List Char}
    (h : containsSeq pat b = true) : containsSeq pat (a ++ b) = true := by
  induction a with
  | nil => simpa using h
  | cons c cs ih => simp [containsSeq, ih]

theorem leadsWith_extend {pat : List Char} :
    ∀ {l : List Char} (b : List Char), leadsWith pat l = true →
      leadsWith pat (l ++ b) = true := by
  induction pat with
  | nil => intro l b _; rfl
  | cons p ps ih =>
    intro l b h
    cases l with
    | nil => cases h
    | cons c cs =>
      simp only [leadsWith, Bool.and_eq_true] at h
      simp only [List.cons_append, leadsWith, Bool.and_eq_true]
      exact ⟨h.1, ih b h.2⟩

theorem leadsWith_self (p : List Char) : leadsWith p p = true := by
  have := leadsWith_refl_append p []
  rwa [List.append_nil] at this

theorem containsSeq_append_left {pat : List Char} :
    ∀ {a : List Char} (b : List Char), containsSeq pat a = true →
      containsSeq pat (a ++ b) = true := by
  intro a
  induction a with
  | nil =>
    intro b h
    have hp : leadsWith pat [] = true := h
    have hpat : pat = [] := by
      cases pat with
      | nil => rfl
      | cons p ps => cases hp
    subst hpat
    cases b with
    | nil => exact h
    | cons c cs => simp [containsSeq, leadsWith]
  | cons c cs ih =>
    intro b h
    simp only [containsSeq, Bool.or_eq_true] at h
    simp only [List.cons_append, containsSeq, Bool.or_eq_true]
    rcases h with h | h
    · exact Or.inl (leadsWith_extend b h)
    · exact Or.inr (ih b h)

/-- Claim C8: `create_slurm_script` writes the script to a file whose name
is determined solely by the CPU count (`slurm_job_<n>.sh`); the total core
count is `cpu_count * 64`; every `{cores}` / `{cpus}` placeholder in the
command template is replaced by the core count and CPU count (leaving no
placeholder tokens, for templates whose fixed text contains no `{`); and
the script text records elapsed seconds to the file `job-<cpu_count>.time`.
For `cpu_count = 2` the substituted literals are `128` and `2`. -/
theorem create_slurm_script_spec :
    (∀ (n : Nat) (cmd jn acc pt : List Char),
      (SingleJobs.create_slurm_script n cmd jn acc pt).1
        = "slurm_job_".data ++ natToChars n ++ ".sh".data)
    ∧ (∀ (n : Nat) (p1 p2 p3 : List Char), '{' ∉ p1 → '{' ∉ p2 → '{' ∉ p3 →
        replaceAll "{cpus}".data (natToChars n)
            (replaceAll "{cores}".data (natToChars (n * 64))
              (p1 ++ ("{cores}".data ++ (p2 ++ ("{cpus}".data ++ p3)))))
          = p1 ++ (natToChars (n * 64) ++ (p2 ++ (natToChars n ++ p3)))
        ∧ containsSeq "{cores}".data
            (p1 ++ (natToChars (n * 64) ++ (p2 ++ (natToChars n ++ p3)))) = false
        ∧ containsSeq "{cpus}".data
            (p1 ++ (natToChars (n * 64) ++ (p2 ++ (natToChars n ++ p3)))) = false)
    ∧ (∀ (n : Nat) (cmd jn acc pt : List Char),
        containsSeq ("job-".data ++ (natToChars n ++ ".time".data))
          (SingleJobs.create_slurm_script n cmd jn acc pt).2 = true)
    ∧ replaceAll "{cpus}".data (natToChars 2)
        (replaceAll "{cores}".data (natToChars (2 * 64))
          "my_tool --consCores {cores} -o output_{cpus}".data)
        = "my_tool --consCores 128 -o output_2".data := by
  have hgen : ∀ (n : Nat) (p1 p2 p3 : List Char), '{' ∉ p1 → '{' ∉ p2 → '{' ∉ p3 →
      replaceAll "{cpus}".data (natToChars n)
          (replaceAll "{cores}".data (natToChars (n * 64))
            (p1 ++ ("{cores}".data ++ (p2 ++ ("{cpus}".data ++ p3)))))
        = p1 ++ (natToChars (n * 64) ++ (p2 ++ (natToChars n ++ p3))) := by
    intro n p1 p2 p3 h1 h2 h3
    rw [show ("{cores}".data : List Char) = '{' :: "cores\x7d".data from rfl,
      show ("{cpus}".data : List Char) = '{' :: "cpus\x7d".data from rfl]
    rw [replaceAll_skip h1, replaceAll_self_head, replaceAll_skip h2, List.cons_append,
      replaceAll_head_no_match (by simp [leadsWith]),
      replaceAll_skip (show '{' ∉ "cpus\x7d".data from by decide), replaceAll_no_open h3]
    rw [replaceAll_skip h1, replaceAll_skip natToChars_no_brace, replaceAll_skip h2,
      ← List.cons_append, replaceAll_self_head, replaceAll_no_open h3]
  refine ⟨fun n cmd jn acc pt => rfl, ?_, ?_, ?_⟩
  · intro n p1 p2 p3 h1 h2 h3
    have hnotin : '{' ∉ p1 ++ (natToChars (n * 64) ++ (p2 ++ (natToChars n ++ p3))) := by
      simp only [List.mem_append, not_or]
      exact ⟨h1, natToChars_no_brace, h2, natToChars_no_brace, h3⟩
    refine ⟨hgen n p1 p2 p3 h1 h2 h3, ?_, ?_⟩
    · rw [show ("{cores}".data : List Char) = '{' :: "cores\x7d".data from rfl]
      exact containsSeq_no_open hnotin
    · rw [show ("{cpus}".data : List Char) = '{' :: "cpus\x7d".data from rfl]
      exact containsSeq_no_open hnotin
  · intro n cmd jn acc pt
    simp only [SingleJobs.create_slurm_script]
    apply containsSeq_append_left
    apply containsSeq_append_right
    exact containsSeq_of_leadsWith (leadsWith_self _)
  · have h := hgen 2 "my_tool --consCores ".data " -o output_".data []
      (by decide) (by decide) (by decide)
    have h2 : replaceAll "{cpus}".data (natToChars 2)
        (replaceAll "{cores}".data (natToChars (2 * 64))
          "my_tool --consCores {cores} -o output_{cpus}".data)
        = "my_tool --consCores ".data
            ++ (natToChars (2 * 64) ++ (" -o output_".data ++ (natToChars 2 ++ []))) := h
    rw [h2, show natToChars (2 * 64) = ['1', '2', '8'] from by simp [natToChars]; decide,
      show natToChars 2 = ['2'] from by simp [natToChars]; decide]
    decide

/-- Witness for C8: the substitution conjunct applied to the template
`"my_tool --consCores {cores} -o output_{cpus}"` at `cpu_count = 2`. -/
theorem create_slurm_script_spec_witness :
    ('{' ∉ "my_tool --consCores ".data)
      ∧ ('{' ∉ " -o output_".data)
      ∧ replaceAll "{cpus}".data (natToChars 2)
          (replaceAll "{cores}".data (natToChars (2 * 64))
            ("my_tool --consCores ".data
              ++ ("{cores}".data ++ (" -o output_".data ++ ("{cpus}".data ++ [])))))
        = "my_tool --consCores ".data
            ++ (natToChars (2 * 64) ++ (" -o output_".data ++ (natToChars 2 ++ []))) :=
  ⟨by decide, by decide,
    (create_slurm_script_spec.2.1 2 "my_tool --consCores ".data " -o output_".data []
      (by decide) (by decide) (by decide)).1⟩
